import Mathlib

/-
  Shallow embedding of the crawl core of qwertyczee/search-everybody
  (src/index.js, crawler part: `crawlerForDomains`, `handleDomain`,
  `extractImagesAndLinks`, `normalizeUrl`).

  The network, the headless renderer, the cheerio HTML parser and the WHATWG
  URL parser are external collaborators; they are modelled as oracle fields of
  an `Env`.  Everything the repository itself computes — the per-domain BFS
  loop, the visited set, the page budget, the link-admission test
  `(u.protocol === http/https) && u.hostname.toLowerCase().endsWith(host)`,
  the fragment strip `u.href.split('#')[0]`, the event emissions, and the
  job-wide image result set — is embedded concretely below.
-/

namespace SearchEverybody

/-- Result of `new URL(ref, base)`: the fields of the parsed URL that the
crawler reads (`protocol`, `hostname`, `href`). -/
structure URLParts where
  protocol : String
  hostname : String
  href : String
deriving DecidableEq, Repr

/-- An entry of a domain's frontier queue `toVisit`: `{ url, depth }`. -/
structure FrontierEntry where
  url : String
  depth : Nat
deriving DecidableEq, Repr

/-- Outcome of the plain `fetch(url, { redirect: follow, timeout: 10000 })`
call: either the promise rejected (`fetchError`), or a response arrived with
an ok-flag (`r.ok`), a flag telling whether the content-type includes
text/html (`ct.includes('text/html')`), and a body. -/
inductive FetchOutcome where
  | fetchError (msg : String)
  | resp (ok : Bool) (isHtml : Bool) (body : String)
deriving DecidableEq, Repr

/-- Outcome of the Playwright render block (lines 231-241 of the crawler):
which await, if any, threw.  `page.goto` failures are swallowed by
`.catch(()=>{})`, so a goto failure is part of `okRender`. -/
inductive RenderOutcome where
  | okRender (gotoFailed : Bool) (doc : String)
  | failNewContext (msg : String)
  | failNewPage (msg : String)
  | failContent (msg : String)
  | failPageClose (msg : String) (doc : String)
deriving DecidableEq, Repr

/-- Events delivered to `onEvent`, keeping the data each template literal
interpolates (type tag, host, url, depth, counters). -/
inductive Event where
  | info (msg : String)
  | progress (host url : String) (depth : Nat)
  | warn (host url : String)
  | renderedOk (host url : String)
  | domainProgress (host : String) (pagesVisited : Nat)
  | domainDone (host : String) (processedDomains : Nat)
deriving DecidableEq, Repr

/-- Whether an acquired browsing context was acquired / released during one
render attempt (ghost instrumentation of `browser.newContext()` /
`context.close()`). -/
structure CtxUse where
  acquired : Bool
  released : Bool
deriving DecidableEq, Repr

/-- The environment of one domain traversal: the crawl configuration plus the
oracles for the external collaborators. -/
structure Env where
  domain : String
  maxPagesPerDomain : Nat
  maxDepth : Nat
  /-- whether a Playwright browser was launched (`browser !== null`). -/
  browser : Bool
  /-- oracle for the plain network fetch of a URL (lines 206-219). -/
  fetchPage : String → FetchOutcome
  /-- oracle for the Playwright render of a URL (lines 232-236). -/
  render : String → RenderOutcome
  /-- oracle for `extractImagesAndLinks(html, url)`: cheerio parsing; returns
  the (already de-duplicated) raw image refs and raw link hrefs. -/
  extractRefs : String → String → List String × List String
  /-- oracle for `new URL(ref, base)`: `none` models a thrown TypeError. -/
  resolve : String → String → Option URLParts

/-- JavaScript `domain.toLowerCase()` (ASCII case folding; hostnames in the
crawler are ASCII). -/
def jsToLower (s : String) : String := String.mk (s.data.map Char.toLower)

/-- JavaScript `s.endsWith(suffix)`. -/
def jsEndsWith (s suffix : String) : Bool := suffix.data.isSuffixOf s.data

/-- Line 191: `const host = domain.toLowerCase()`. -/
def Env.host (env : Env) : String := jsToLower env.domain

/-- The mutable state of `handleDomain`'s while-loop, plus ghost logs
(`dequeuedLog`, `ctxLog`) recording dequeues and render-context usage. -/
structure CrawlState where
  seen : List String
  toVisit : List FrontierEntry
  pagesVisited : Nat
  /-- the job-wide unique image set `JOBS[jobId].results` fed by
  `onFoundImage` (insertion-ordered, no duplicates). -/
  results : List String
  events : List Event
  dequeuedLog : List FrontierEntry
  ctxLog : List CtxUse
deriving DecidableEq, Repr

/-- JavaScript `Set.add` on the results set: inserting a member is a no-op,
otherwise the element is appended. -/
def setAdd (xs : List String) (x : String) : List String :=
  if xs.contains x then xs else xs ++ [x]

/-- Lines 344-350: `normalizeUrl(u, base)` — `new URL(u, base).href`, falling
back to the raw string when parsing throws. -/
def normalizeUrl (resolve : String → String → Option URLParts) (u base : String) : String :=
  match resolve u base with
  | some parts => parts.href
  | none => u

/-- Lines 214-223: the html value produced by the plain fetch — the body only
when the response's content-type includes text/html, otherwise `null`. -/
def fetchedHtml : FetchOutcome → Option String
  | .fetchError _ => none
  | .resp _ isHtml body => if isHtml then some body else none

/-- Lines 215-217 and 224-226: warn events of the plain fetch (non-ok status
or a thrown fetch error). -/
def fetchWarns (host url : String) : FetchOutcome → List Event
  | .fetchError _ => [.warn host url]
  | .resp ok _ _ => if ok then [] else [.warn host url]

/-- Line 230, first conjunct: `!html || html.length < 50`.  In JavaScript the
empty string is falsy, and an empty string also has length < 50, so for a
non-null html the test collapses to the length check. -/
def needsRender (html : Option String) : Bool :=
  match html with
  | none => true
  | some s => s.length < 50

/-- The html value after the render block: on full success (and on a
swallowed goto failure) `html = await page.content()`; if `page.close()`
threw, the assignment to html already happened; on any earlier throw html
keeps its prior value. -/
def renderedHtml (prior : Option String) : RenderOutcome → Option String
  | .okRender _ doc => some doc
  | .failNewContext _ => prior
  | .failNewPage _ => prior
  | .failContent _ => prior
  | .failPageClose _ doc => some doc

/-- Line 238 (info on success) and line 240 (warn in the catch). -/
def renderEvents (host url : String) : RenderOutcome → List Event
  | .okRender _ _ => [.renderedOk host url]
  | .failNewContext _ => [.warn host url]
  | .failNewPage _ => [.warn host url]
  | .failContent _ => [.warn host url]
  | .failPageClose _ _ => [.warn host url]

/-- Context bookkeeping of the render block: the context is acquired unless
`browser.newContext()` itself threw, and `context.close()` (line 237) is
reached only when every earlier await in the try block succeeded. -/
def renderCtxUse : RenderOutcome → CtxUse
  | .okRender _ _ => ⟨true, true⟩
  | .failNewContext _ => ⟨false, false⟩
  | .failNewPage _ => ⟨true, false⟩
  | .failContent _ => ⟨true, false⟩
  | .failPageClose _ _ => ⟨true, false⟩

/-- Line 244: JavaScript truthiness test `!html` — true for `null` and for
the empty string. -/
def jsFalsy : Option String → Bool
  | none => true
  | some s => s.isEmpty

/-- Line 263: the link-admission test as the code writes it —
`(u.protocol === 'http:' || u.protocol === 'https:') &&
u.hostname.toLowerCase().endsWith(host)`. -/
def codeAdmits (host : String) (u : URLParts) : Bool :=
  (u.protocol == "http:" || u.protocol == "https:") && jsEndsWith (jsToLower u.hostname) host

/-- Line 264: `u.href.split('#')[0]` — the prefix of href before the first
`#` (the whole string when there is none). -/
def stripFragment (href : String) : String :=
  String.mk (href.data.takeWhile (fun c => c != '#'))

/-- Lines 258-273: the for-loop over extracted links.  Each link is resolved
against the fetched page's URL; on a parse error it is ignored; an admitted
link is fragment-stripped and pushed unless the stripped URL is in `seen`
(the frontier itself is not consulted).  The `seen` set does not change
during the loop, so the loop is plain structural recursion over the links. -/
def enqueueLinks (env : Env) (pageUrl : String) (depth : Nat) :
    List String → List String → List FrontierEntry → List FrontierEntry
  | [], _, queue => queue
  | link :: links, seen, queue =>
    match env.resolve link pageUrl with
    | none => enqueueLinks env pageUrl depth links seen queue
    | some u =>
      if codeAdmits env.host u then
        let normalized := stripFragment u.href
        if seen.contains normalized then enqueueLinks env pageUrl depth links seen queue
        else enqueueLinks env pageUrl depth links seen (queue ++ [⟨normalized, depth + 1⟩])
      else enqueueLinks env pageUrl depth links seen queue

/-- Lines 249-279: the content-bearing tail of one loop iteration — extract,
forward images to the sink, enqueue admitted links when `depth < maxDepth`,
increment `pagesVisited`, and emit `domain-progress` on every 5th page. -/
def extractPhase (env : Env) (entry : FrontierEntry) (htmlStr : String)
    (s : CrawlState) : CrawlState :=
  let images := (env.extractRefs htmlStr entry.url).1
  let links := (env.extractRefs htmlStr entry.url).2
  let s1 := { s with
    results := images.foldl (fun r img => setAdd r (normalizeUrl env.resolve img entry.url)) s.results }
  let s2 := if entry.depth < env.maxDepth then
      { s1 with toVisit := enqueueLinks env entry.url entry.depth links s1.seen s1.toVisit }
    else s1
  let s3 := { s2 with pagesVisited := s2.pagesVisited + 1 }
  if s3.pagesVisited % 5 == 0 then
    { s3 with events := s3.events ++ [Event.domainProgress env.host s3.pagesVisited] }
  else s3

/-- Lines 201-242: the fetch of one page followed by the conditional render
fallback — returns the html value (`none` models `html === null`) and the
state with the fetch/render events and the ghost context log appended. -/
def fetchRenderPhase (env : Env) (entry : FrontierEntry) (s : CrawlState) :
    Option String × CrawlState :=
  let fo := env.fetchPage entry.url
  let s2 := { s with events := s.events ++ fetchWarns env.host entry.url fo }
  let html0 := fetchedHtml fo
  if needsRender html0 && env.browser then
    (renderedHtml html0 (env.render entry.url),
     { s2 with
       events := s2.events ++ renderEvents env.host entry.url (env.render entry.url),
       ctxLog := s2.ctxLog ++ [renderCtxUse (env.render entry.url)] })
  else (html0, s2)

/-- Lines 199-202: `seen.add(url)` and the progress event of a page about to
be fetched. -/
def markVisited (env : Env) (entry : FrontierEntry) (s : CrawlState) : CrawlState :=
  { s with
    seen := s.seen ++ [entry.url],
    events := s.events ++ [Event.progress env.host entry.url entry.depth] }

/-- Lines 198-279: one loop iteration applied to a dequeued entry.  Already
seen entries are discarded with no effect (`continue`); otherwise the entry
is marked seen, a progress event is emitted, the page is fetched, the render
fallback may run, and either the empty-content shortcut (lines 244-247:
`pagesVisited++; continue`, which in JavaScript also fires on an empty
string) or the extract phase concludes the iteration. -/
def processEntry (env : Env) (entry : FrontierEntry) (s : CrawlState) : CrawlState :=
  if s.seen.contains entry.url then s
  else
    let hs := fetchRenderPhase env entry (markVisited env entry s)
    match hs.1 with
    | none => { hs.2 with pagesVisited := hs.2.pagesVisited + 1 }
    | some htmlStr =>
      if htmlStr.isEmpty then { hs.2 with pagesVisited := hs.2.pagesVisited + 1 }
      else extractPhase env entry htmlStr hs.2

/-- Line 197: `const { url, depth } = toVisit.shift()` followed by the body;
the dequeued entry is also recorded in the ghost log. -/
def stepOnce (env : Env) (s : CrawlState) : CrawlState :=
  match s.toVisit with
  | [] => s
  | entry :: rest =>
    processEntry env entry { s with toVisit := rest, dequeuedLog := s.dequeuedLog ++ [entry] }

/-- Line 196: the while-loop guard
`toVisit.length && pagesVisited < maxPagesPerDomain`. -/
def crawlGuard (env : Env) (s : CrawlState) : Bool :=
  !s.toVisit.isEmpty && decide (s.pagesVisited < env.maxPagesPerDomain)

/-- The while-loop, fuel-indexed: with enough fuel this is exactly the loop
of lines 196-280. -/
def crawlLoop (env : Env) : Nat → CrawlState → CrawlState
  | 0, s => s
  | Nat.succ fuel, s => if crawlGuard env s then crawlLoop env fuel (stepOnce env s) else s

/-- Lines 190-194: the initial traversal state —
`toVisit = [{url: http://domain, depth: 0}]`, empty seen set, zero budget
used.  The results field models the job-wide image set, empty at job start. -/
def initState (env : Env) : CrawlState :=
  { seen := [], toVisit := [⟨"http://" ++ env.domain, 0⟩], pagesVisited := 0,
    results := [], events := [], dequeuedLog := [], ctxLog := [] }

/-- Lines 189-284: `handleDomain` — run the loop from the seed state, then
emit `domain-done` with the incremented job-wide processed-domain counter. -/
def handleDomain (env : Env) (processedDomains : Nat) (fuel : Nat) : CrawlState :=
  let s := crawlLoop env fuel (initState env)
  { s with events := s.events ++ [Event.domainDone env.host (processedDomains + 1)] }

/-- Line 94: `onFoundImage: imgUrl => JOBS[jobId].results.add(imgUrl)`
composed with the call site `onFoundImage(normalizeUrl(img, url))` — one
image forward into the job-wide sink. -/
def sinkAdd (resolve : String → String → Option URLParts) (sink : List String)
    (raw base : String) : List String :=
  setAdd sink (normalizeUrl resolve raw base)

/-- All entries that were ever placed on the frontier: those already dequeued
plus those still pending (entries leave `toVisit` only by being dequeued). -/
def everPlaced (s : CrawlState) : List FrontierEntry := s.dequeuedLog ++ s.toVisit

/-- Modelled from the spec: the admission predicate as the specification
words it — scheme http/https and resolved hostname equal to the traversal's
host or a subdomain of it (the host preceded by a dot).  Declared only to be
compared with `codeAdmits`, the predicate the source actually evaluates. -/
def specAdmits (host : String) (u : URLParts) : Bool :=
  (u.protocol == "http:" || u.protocol == "https:") &&
  (jsToLower u.hostname == host || jsEndsWith (jsToLower u.hostname) (String.append "." host))

/-- Concrete environment: the crawled page of host example.com carries a link
to evilexample.com, whose hostname merely ends with the string
"example.com" without being a subdomain of it. -/
def evilEnv : Env :=
  { domain := "example.com", maxPagesPerDomain := 20, maxDepth := 2, browser := false,
    fetchPage := fun _ => .resp true true "<html>page</html>",
    render := fun _ => .failContent "unused",
    extractRefs := fun _ _ => ([], ["http://evilexample.com/"]),
    resolve := fun link _ =>
      if link == "http://evilexample.com/" then
        some ⟨"http:", "evilexample.com", "http://evilexample.com/"⟩
      else none }

/-- Concrete environment: one page holding two distinct raw link strings that
resolve, after fragment stripping, to the same absolute URL. -/
def dupEnv : Env :=
  { domain := "example.com", maxPagesPerDomain := 20, maxDepth := 2, browser := false,
    fetchPage := fun _ => .resp true true "<html>page</html>",
    render := fun _ => .failContent "unused",
    extractRefs := fun _ _ => ([], ["/p", "/p#x"]),
    resolve := fun link _ =>
      if link == "/p" then some ⟨"http:", "example.com", "http://example.com/p"⟩
      else if link == "/p#x" then some ⟨"http:", "example.com", "http://example.com/p#x"⟩
      else none }

/-- Concrete environment: the response content-type is not HTML, the browser
is available, and the render fallback returns a document holding an image. -/
def nonHtmlEnv : Env :=
  { domain := "example.com", maxPagesPerDomain := 20, maxDepth := 2, browser := true,
    fetchPage := fun _ => .resp true false "json-payload",
    render := fun _ => .okRender false "<html><body><img src=a.png></body></html>",
    extractRefs := fun _ _ => (["a.png"], []),
    resolve := fun link base =>
      if link == "a.png" && base == "http://example.com" then
        some ⟨"http:", "example.com", "http://example.com/a.png"⟩
      else none }

/-- Concrete environment: the response content-type is not HTML and no
browser is available. -/
def plainNonHtmlEnv : Env :=
  { domain := "example.com", maxPagesPerDomain := 20, maxDepth := 2, browser := false,
    fetchPage := fun _ => .resp true false "json-payload",
    render := fun _ => .failContent "unused",
    extractRefs := fun _ _ => (["a.png"], ["/p"]),
    resolve := fun _ _ => some ⟨"http:", "example.com", "http://example.com/p"⟩ }

/-- Concrete environment: the plain fetch fails, the browser is available,
and capturing the rendered document (`page.content()`) throws. -/
def leakEnv : Env :=
  { domain := "example.com", maxPagesPerDomain := 20, maxDepth := 2, browser := true,
    fetchPage := fun _ => .fetchError "connection refused",
    render := fun _ => .failContent "target crashed",
    extractRefs := fun _ _ => ([], []),
    resolve := fun _ _ => none }

/-- Concrete environment: the plain fetch yields a short (below the 50-byte
threshold) HTML body holding an image, and the render fallback fails. -/
def shortEnv : Env :=
  { domain := "example.com", maxPagesPerDomain := 20, maxDepth := 2, browser := true,
    fetchPage := fun _ => .resp true true "<img src=a.png>",
    render := fun _ => .failContent "target crashed",
    extractRefs := fun _ _ => (["a.png"], []),
    resolve := fun link _ =>
      if link == "a.png" then some ⟨"http:", "example.com", "http://example.com/a.png"⟩
      else none }

/-- Concrete environment: the seed page links to four pages and the fourth of
them — the fifth page processed overall — fails to fetch. -/
def run5Env : Env :=
  { domain := "ex.com", maxPagesPerDomain := 20, maxDepth := 2, browser := false,
    fetchPage := fun url =>
      if url == "http://ex.com/4" then .fetchError "connection refused"
      else if url == "http://ex.com" then .resp true true "seedpage"
      else .resp true true "leafpage",
    render := fun _ => .failContent "unused",
    extractRefs := fun html _ =>
      if html == "seedpage" then ([], ["/1", "/2", "/3", "/4"]) else ([], []),
    resolve := fun link _ =>
      if link == "/1" then some ⟨"http:", "ex.com", "http://ex.com/1"⟩
      else if link == "/2" then some ⟨"http:", "ex.com", "http://ex.com/2"⟩
      else if link == "/3" then some ⟨"http:", "ex.com", "http://ex.com/3"⟩
      else if link == "/4" then some ⟨"http:", "ex.com", "http://ex.com/4"⟩
      else none }

/-- Concrete environment with `maxDepth = 0`: pages carry links, yet none may
be enqueued. -/
def depth0Env : Env :=
  { domain := "example.com", maxPagesPerDomain := 20, maxDepth := 0, browser := false,
    fetchPage := fun _ => .resp true true "<html>page</html>",
    render := fun _ => .failContent "unused",
    extractRefs := fun _ _ => ([], ["/p"]),
    resolve := fun _ _ => some ⟨"http:", "example.com", "http://example.com/p"⟩ }

/-- Concrete environment: a long content-bearing HTML page with nothing to
extract, used to exercise the every-5th-page progress event. -/
def progressEnv : Env :=
  { domain := "example.com", maxPagesPerDomain := 20, maxDepth := 2, browser := false,
    fetchPage := fun _ =>
      .resp true true "<html><body>0123456789012345678901234567890123456789</body></html>",
    render := fun _ => .failContent "unused",
    extractRefs := fun _ _ => ([], []),
    resolve := fun _ _ => none }

/-- Concrete mid-traversal state: four pages already metered and a fifth
pending. -/
def progressState : CrawlState :=
  { seen := ["http://example.com", "http://example.com/1", "http://example.com/2",
             "http://example.com/3"],
    toVisit := [⟨"http://example.com/5", 1⟩], pagesVisited := 4,
    results := [], events := [], dequeuedLog := [], ctxLog := [] }

/-- The breadth-first invariant of a traversal state: dequeued depths are
non-decreasing, every dequeued depth bounds every pending depth from below,
pending depths are non-decreasing, and no pending depth exceeds the depth at
the queue's head by more than one. -/
def BfsInv (s : CrawlState) : Prop :=
  s.dequeuedLog.Pairwise (fun a b => a.depth ≤ b.depth) ∧
  (∀ x ∈ s.dequeuedLog, ∀ e ∈ s.toVisit, x.depth ≤ e.depth) ∧
  s.toVisit.Pairwise (fun a b => a.depth ≤ b.depth) ∧
  (∀ a, s.toVisit.head? = some a → ∀ e ∈ s.toVisit, e.depth ≤ a.depth + 1)

/-! Helper lemmas about the link-enqueue loop and the phases of one page. -/

theorem enqueueLinks_anatomy (env : Env) (pageUrl : String) (depth : Nat)
    (links seen : List String) (queue : List FrontierEntry) :
    ∃ t, enqueueLinks env pageUrl depth links seen queue = queue ++ t ∧
      ∀ e ∈ t, e.depth = depth + 1 ∧
        ∃ link u, env.resolve link pageUrl = some u ∧ codeAdmits env.host u = true ∧
          e.url = stripFragment u.href ∧ seen.contains e.url = false := by
  induction links generalizing queue with
  | nil => exact ⟨[], by simp [enqueueLinks], by simp⟩
  | cons l ls ih =>
    simp only [enqueueLinks]
    cases hres : env.resolve l pageUrl with
    | none => exact ih queue
    | some u =>
      by_cases hadm : codeAdmits env.host u = true
      · simp only [hadm, if_true]
        by_cases hmem : seen.contains (stripFragment u.href) = true
        · simp only [hmem, if_true]
          exact ih queue
        · rw [Bool.not_eq_true] at hmem
          simp only [hmem, Bool.false_eq_true, if_false]
          obtain ⟨t, ht, hp⟩ := ih (queue ++ [⟨stripFragment u.href, depth + 1⟩])
          refine ⟨⟨stripFragment u.href, depth + 1⟩ :: t, by simp [ht], ?_⟩
          intro e he
          rcases List.mem_cons.mp he with rfl | he
          · exact ⟨rfl, l, u, hres, hadm, rfl, hmem⟩
          · exact hp e he
      · rw [Bool.not_eq_true] at hadm
        simp only [hadm, Bool.false_eq_true, if_false]
        exact ih queue

theorem extractPhase_seen (env : Env) (entry : FrontierEntry) (htmlStr : String)
    (s : CrawlState) : (extractPhase env entry htmlStr s).seen = s.seen := by
  simp only [extractPhase]
  split <;> split <;> rfl

theorem extractPhase_dequeuedLog (env : Env) (entry : FrontierEntry) (htmlStr : String)
    (s : CrawlState) : (extractPhase env entry htmlStr s).dequeuedLog = s.dequeuedLog := by
  simp only [extractPhase]
  split <;> split <;> rfl

theorem extractPhase_ctxLog (env : Env) (entry : FrontierEntry) (htmlStr : String)
    (s : CrawlState) : (extractPhase env entry htmlStr s).ctxLog = s.ctxLog := by
  simp only [extractPhase]
  split <;> split <;> rfl

theorem extractPhase_pagesVisited (env : Env) (entry : FrontierEntry) (htmlStr : String)
    (s : CrawlState) : (extractPhase env entry htmlStr s).pagesVisited = s.pagesVisited + 1 := by
  simp only [extractPhase]
  split <;> split <;> rfl

theorem extractPhase_results (env : Env) (entry : FrontierEntry) (htmlStr : String)
    (s : CrawlState) : (extractPhase env entry htmlStr s).results =
      ((env.extractRefs htmlStr entry.url).1).foldl
        (fun r img => setAdd r (normalizeUrl env.resolve img entry.url)) s.results := by
  simp only [extractPhase]
  split <;> split <;> rfl

theorem extractPhase_toVisit (env : Env) (entry : FrontierEntry) (htmlStr : String)
    (s : CrawlState) :
    ∃ t, (extractPhase env entry htmlStr s).toVisit = s.toVisit ++ t ∧
      ∀ e ∈ t, entry.depth < env.maxDepth ∧ e.depth = entry.depth + 1 ∧
        ∃ link u, env.resolve link entry.url = some u ∧ codeAdmits env.host u = true ∧
          e.url = stripFragment u.href ∧ s.seen.contains e.url = false := by
  simp only [extractPhase]
  by_cases hd : entry.depth < env.maxDepth
  · obtain ⟨t, ht, hp⟩ := enqueueLinks_anatomy env entry.url entry.depth
      (env.extractRefs htmlStr entry.url).2 s.seen s.toVisit
    refine ⟨t, ?_, fun e he => ⟨hd, hp e he⟩⟩
    simp only [hd, if_true]
    split <;> simpa using ht
  · refine ⟨[], ?_, by simp⟩
    simp only [hd, if_false]
    split <;> simp

theorem extractPhase_events (env : Env) (entry : FrontierEntry) (htmlStr : String)
    (s : CrawlState) :
    ∃ es, (extractPhase env entry htmlStr s).events = s.events ++ es := by
  simp only [extractPhase]
  split
  · split
    · exact ⟨[Event.domainProgress env.host (s.pagesVisited + 1)], rfl⟩
    · exact ⟨[], by simp⟩
  · split
    · exact ⟨[Event.domainProgress env.host (s.pagesVisited + 1)], rfl⟩
    · exact ⟨[], by simp⟩

theorem extractPhase_domainProgress (env : Env) (entry : FrontierEntry) (htmlStr : String)
    (s : CrawlState) (hm : (s.pagesVisited + 1) % 5 = 0) :
    Event.domainProgress env.host (s.pagesVisited + 1) ∈ (extractPhase env entry htmlStr s).events := by
  simp only [extractPhase]
  by_cases hd : entry.depth < env.maxDepth <;> simp [hd, hm]

theorem fetchRenderPhase_seen (env : Env) (entry : FrontierEntry) (s : CrawlState) :
    ((fetchRenderPhase env entry s).2).seen = s.seen := by
  simp only [fetchRenderPhase]
  split <;> rfl

theorem fetchRenderPhase_toVisit (env : Env) (entry : FrontierEntry) (s : CrawlState) :
    ((fetchRenderPhase env entry s).2).toVisit = s.toVisit := by
  simp only [fetchRenderPhase]
  split <;> rfl

theorem fetchRenderPhase_pagesVisited (env : Env) (entry : FrontierEntry) (s : CrawlState) :
    ((fetchRenderPhase env entry s).2).pagesVisited = s.pagesVisited := by
  simp only [fetchRenderPhase]
  split <;> rfl

theorem fetchRenderPhase_results (env : Env) (entry : FrontierEntry) (s : CrawlState) :
    ((fetchRenderPhase env entry s).2).results = s.results := by
  simp only [fetchRenderPhase]
  split <;> rfl

theorem fetchRenderPhase_dequeuedLog (env : Env) (entry : FrontierEntry) (s : CrawlState) :
    ((fetchRenderPhase env entry s).2).dequeuedLog = s.dequeuedLog := by
  simp only [fetchRenderPhase]
  split <;> rfl

theorem fetchRenderPhase_events_mono (env : Env) (entry : FrontierEntry) (s : CrawlState) :
    ∃ es, ((fetchRenderPhase env entry s).2).events = s.events ++ es := by
  simp only [fetchRenderPhase]
  split
  · refine ⟨fetchWarns env.host entry.url (env.fetchPage entry.url) ++
      renderEvents env.host entry.url (env.render entry.url), ?_⟩
    simp
  · exact ⟨fetchWarns env.host entry.url (env.fetchPage entry.url), rfl⟩

theorem fetchRenderPhase_ctxLog_mono (env : Env) (entry : FrontierEntry) (s : CrawlState) :
    ∃ cl, ((fetchRenderPhase env entry s).2).ctxLog = s.ctxLog ++ cl := by
  simp only [fetchRenderPhase]
  split
  · exact ⟨[renderCtxUse (env.render entry.url)], rfl⟩
  · exact ⟨[], by simp⟩

theorem fetchRenderPhase_html (env : Env) (entry : FrontierEntry) (s : CrawlState) :
    (fetchRenderPhase env entry s).1 =
      if needsRender (fetchedHtml (env.fetchPage entry.url)) && env.browser then
        renderedHtml (fetchedHtml (env.fetchPage entry.url)) (env.render entry.url)
      else fetchedHtml (env.fetchPage entry.url) := by
  simp only [fetchRenderPhase]
  split <;> simp_all

theorem fetchRenderPhase_ctxLog_of_render (env : Env) (entry : FrontierEntry) (s : CrawlState)
    (hc : (needsRender (fetchedHtml (env.fetchPage entry.url)) && env.browser) = true) :
    ((fetchRenderPhase env entry s).2).ctxLog =
      s.ctxLog ++ [renderCtxUse (env.render entry.url)] := by
  simp only [fetchRenderPhase, hc, if_true]

theorem processEntry_of_seen (env : Env) (entry : FrontierEntry) (s : CrawlState)
    (h : s.seen.contains entry.url = true) :
    processEntry env entry s = s := by
  simp only [processEntry, h, if_true]

theorem processEntry_seen_eq (env : Env) (entry : FrontierEntry) (s : CrawlState)
    (h : s.seen.contains entry.url = false) :
    (processEntry env entry s).seen = s.seen ++ [entry.url] := by
  simp only [processEntry, h, Bool.false_eq_true, if_false]
  split
  · simp [markVisited, fetchRenderPhase_seen]
  · split
    · simp [markVisited, fetchRenderPhase_seen]
    · simp [extractPhase_seen, fetchRenderPhase_seen, markVisited]

theorem processEntry_pagesVisited (env : Env) (entry : FrontierEntry) (s : CrawlState)
    (h : s.seen.contains entry.url = false) :
    (processEntry env entry s).pagesVisited = s.pagesVisited + 1 := by
  simp only [processEntry, h, Bool.false_eq_true, if_false]
  split
  · simp [markVisited, fetchRenderPhase_pagesVisited]
  · split
    · simp [markVisited, fetchRenderPhase_pagesVisited]
    · simp [extractPhase_pagesVisited, fetchRenderPhase_pagesVisited, markVisited]

theorem processEntry_dequeuedLog (env : Env) (entry : FrontierEntry) (s : CrawlState) :
    (processEntry env entry s).dequeuedLog = s.dequeuedLog := by
  by_cases h : s.seen.contains entry.url = true
  · rw [processEntry_of_seen env entry s h]
  · rw [Bool.not_eq_true] at h
    simp only [processEntry, h, Bool.false_eq_true, if_false]
    split
    · simp [markVisited, fetchRenderPhase_dequeuedLog]
    · split
      · simp [markVisited, fetchRenderPhase_dequeuedLog]
      · simp [extractPhase_dequeuedLog, fetchRenderPhase_dequeuedLog, markVisited]

theorem processEntry_results (env : Env) (entry : FrontierEntry) (s : CrawlState)
    (h : s.seen.contains entry.url = false) :
    ∃ imgs : List String, (processEntry env entry s).results =
      imgs.foldl (fun r img => setAdd r (normalizeUrl env.resolve img entry.url)) s.results := by
  simp only [processEntry, h, Bool.false_eq_true, if_false]
  cases hh : (fetchRenderPhase env entry (markVisited env entry s)).1 with
  | none => exact ⟨[], by simp [fetchRenderPhase_results, markVisited]⟩
  | some htmlStr =>
    by_cases hne : htmlStr.isEmpty = true
    · simp only [hne, if_true]
      exact ⟨[], by simp [fetchRenderPhase_results, markVisited]⟩
    · rw [Bool.not_eq_true] at hne
      simp only [hne, Bool.false_eq_true, if_false]
      refine ⟨(env.extractRefs htmlStr entry.url).1, ?_⟩
      rw [extractPhase_results, fetchRenderPhase_results]
      simp [markVisited]

theorem processEntry_toVisit (env : Env) (entry : FrontierEntry) (s : CrawlState)
    (h : s.seen.contains entry.url = false) :
    ∃ t, (processEntry env entry s).toVisit = s.toVisit ++ t ∧
      ∀ e ∈ t, entry.depth < env.maxDepth ∧ e.depth = entry.depth + 1 ∧
        ∃ link u, env.resolve link entry.url = some u ∧ codeAdmits env.host u = true ∧
          e.url = stripFragment u.href ∧ (s.seen ++ [entry.url]).contains e.url = false := by
  simp only [processEntry, h, Bool.false_eq_true, if_false]
  cases hh : (fetchRenderPhase env entry (markVisited env entry s)).1 with
  | none => exact ⟨[], by simp [fetchRenderPhase_toVisit, markVisited], by simp⟩
  | some htmlStr =>
    by_cases hne : htmlStr.isEmpty = true
    · simp only [hne, if_true]
      exact ⟨[], by simp [fetchRenderPhase_toVisit, markVisited], by simp⟩
    · rw [Bool.not_eq_true] at hne
      simp only [hne, Bool.false_eq_true, if_false]
      obtain ⟨t, ht, hp⟩ := extractPhase_toVisit env entry htmlStr
        (fetchRenderPhase env entry (markVisited env entry s)).2
      refine ⟨t, ?_, ?_⟩
      · rw [ht, fetchRenderPhase_toVisit]
        simp [markVisited]
      · intro e he
        obtain ⟨hd, hdep, link, u, hres, hadm, hurl, hcont⟩ := hp e he
        rw [fetchRenderPhase_seen] at hcont
        simp only [markVisited] at hcont
        exact ⟨hd, hdep, link, u, hres, hadm, hurl, hcont⟩

theorem processEntry_events_mono (env : Env) (entry : FrontierEntry) (s : CrawlState) :
    ∃ es, (processEntry env entry s).events = s.events ++ es := by
  by_cases h : s.seen.contains entry.url = true
  · exact ⟨[], by rw [processEntry_of_seen env entry s h]; simp⟩
  · rw [Bool.not_eq_true] at h
    simp only [processEntry, h, Bool.false_eq_true, if_false]
    obtain ⟨es2, hes2⟩ := fetchRenderPhase_events_mono env entry (markVisited env entry s)
    cases hh : (fetchRenderPhase env entry (markVisited env entry s)).1 with
    | none =>
      refine ⟨Event.progress env.host entry.url entry.depth :: es2, ?_⟩
      simp only [hes2]
      simp [markVisited]
    | some htmlStr =>
      by_cases hne : htmlStr.isEmpty = true
      · simp only [hne, if_true]
        refine ⟨Event.progress env.host entry.url entry.depth :: es2, ?_⟩
        simp only [hes2]
        simp [markVisited]
      · rw [Bool.not_eq_true] at hne
        simp only [hne, Bool.false_eq_true, if_false]
        obtain ⟨es, hes⟩ := extractPhase_events env entry htmlStr
          (fetchRenderPhase env entry (markVisited env entry s)).2
        refine ⟨(Event.progress env.host entry.url entry.depth :: es2) ++ es, ?_⟩
        rw [hes, hes2]
        simp [markVisited]

theorem processEntry_ctxLog_mono (env : Env) (entry : FrontierEntry) (s : CrawlState) :
    ∃ cl, (processEntry env entry s).ctxLog = s.ctxLog ++ cl := by
  by_cases h : s.seen.contains entry.url = true
  · exact ⟨[], by rw [processEntry_of_seen env entry s h]; simp⟩
  · rw [Bool.not_eq_true] at h
    simp only [processEntry, h, Bool.false_eq_true, if_false]
    obtain ⟨cl, hcl⟩ := fetchRenderPhase_ctxLog_mono env entry (markVisited env entry s)
    cases hh : (fetchRenderPhase env entry (markVisited env entry s)).1 with
    | none => exact ⟨cl, by simp only [hcl]; simp [markVisited]⟩
    | some htmlStr =>
      by_cases hne : htmlStr.isEmpty = true
      · simp only [hne, if_true]
        exact ⟨cl, by simp only [hcl]; simp [markVisited]⟩
      · rw [Bool.not_eq_true] at hne
        simp only [hne, Bool.false_eq_true, if_false]
        refine ⟨cl, ?_⟩
        rw [extractPhase_ctxLog, hcl]
        simp [markVisited]

theorem stepOnce_of_nil (env : Env) (s : CrawlState) (h : s.toVisit = []) :
    stepOnce env s = s := by
  simp only [stepOnce, h]

theorem stepOnce_eq (env : Env) (s : CrawlState) (entry : FrontierEntry)
    (rest : List FrontierEntry) (h : s.toVisit = entry :: rest) :
    stepOnce env s =
      processEntry env entry
        { s with toVisit := rest, dequeuedLog := s.dequeuedLog ++ [entry] } := by
  simp only [stepOnce, h]

theorem crawlLoop_invariant (env : Env) (P : CrawlState → Prop)
    (hstep : ∀ s, crawlGuard env s = true → P s → P (stepOnce env s)) :
    ∀ fuel s, P s → P (crawlLoop env fuel s) := by
  intro fuel
  induction fuel with
  | zero => intro s hP; exact hP
  | succ n ih =>
    intro s hP
    simp only [crawlLoop]
    by_cases hg : crawlGuard env s = true
    · simp only [hg, if_true]
      exact ih _ (hstep s hg hP)
    · rw [Bool.not_eq_true] at hg
      simp only [hg, Bool.false_eq_true, if_false]
      exact hP

theorem handleDomain_pagesVisited (env : Env) (pd fuel : Nat) :
    (handleDomain env pd fuel).pagesVisited = (crawlLoop env fuel (initState env)).pagesVisited := rfl

theorem handleDomain_seen (env : Env) (pd fuel : Nat) :
    (handleDomain env pd fuel).seen = (crawlLoop env fuel (initState env)).seen := rfl

theorem handleDomain_toVisit (env : Env) (pd fuel : Nat) :
    (handleDomain env pd fuel).toVisit = (crawlLoop env fuel (initState env)).toVisit := rfl

theorem handleDomain_dequeuedLog (env : Env) (pd fuel : Nat) :
    (handleDomain env pd fuel).dequeuedLog = (crawlLoop env fuel (initState env)).dequeuedLog := rfl

theorem handleDomain_results (env : Env) (pd fuel : Nat) :
    (handleDomain env pd fuel).results = (crawlLoop env fuel (initState env)).results := rfl

theorem handleDomain_everPlaced (env : Env) (pd fuel : Nat) :
    everPlaced (handleDomain env pd fuel) = everPlaced (crawlLoop env fuel (initState env)) := rfl

theorem stepOnce_pagesVisited_le (env : Env) (s : CrawlState) :
    (stepOnce env s).pagesVisited ≤ s.pagesVisited + 1 := by
  cases hq : s.toVisit with
  | nil => rw [stepOnce_of_nil env s hq]; omega
  | cons entry rest =>
    rw [stepOnce_eq env s entry rest hq]
    set s' : CrawlState :=
      { s with toVisit := rest, dequeuedLog := s.dequeuedLog ++ [entry] } with hs'
    by_cases h : s'.seen.contains entry.url = true
    · rw [processEntry_of_seen _ _ _ h]
      simp [hs']
    · rw [Bool.not_eq_true] at h
      rw [processEntry_pagesVisited _ _ _ h]

theorem crawlLoop_pagesVisited_le (env : Env) (fuel : Nat) (s : CrawlState)
    (h : s.pagesVisited ≤ env.maxPagesPerDomain) :
    (crawlLoop env fuel s).pagesVisited ≤ env.maxPagesPerDomain :=
  crawlLoop_invariant env (fun st => st.pagesVisited ≤ env.maxPagesPerDomain)
    (fun st hg _ => by
      have h1 := stepOnce_pagesVisited_le env st
      have h2 : st.pagesVisited < env.maxPagesPerDomain := by
        simp only [crawlGuard, Bool.and_eq_true, decide_eq_true_eq] at hg
        exact hg.2
      omega) fuel s h

/-- C3: after a domain's traversal terminates (the fuel-indexed loop run from
the seed state, for every fuel and in particular any fuel large enough to
exhaust the loop guard), the domain's `pagesVisited` counter never exceeds
`maxPagesPerDomain`. -/
theorem pagesVisited_le_maxPagesPerDomain (env : Env) (pd fuel : Nat) :
    (handleDomain env pd fuel).pagesVisited ≤ env.maxPagesPerDomain := by
  rw [handleDomain_pagesVisited]
  exact crawlLoop_pagesVisited_le env fuel (initState env) (by simp [initState])

theorem stepOnce_everPlaced (env : Env) (s : CrawlState) :
    ∃ t, everPlaced (stepOnce env s) = everPlaced s ++ t ∧
      ∀ e ∈ t, ∃ entry, entry ∈ s.toVisit ∧ entry.depth < env.maxDepth ∧
        e.depth = entry.depth + 1 ∧
        ∃ link u, env.resolve link entry.url = some u ∧ codeAdmits env.host u = true ∧
          e.url = stripFragment u.href := by
  cases hq : s.toVisit with
  | nil => exact ⟨[], by rw [stepOnce_of_nil env s hq]; simp, by simp⟩
  | cons entry rest =>
    rw [stepOnce_eq env s entry rest hq]
    set s' : CrawlState :=
      { s with toVisit := rest, dequeuedLog := s.dequeuedLog ++ [entry] } with hs'
    by_cases h : s'.seen.contains entry.url = true
    · refine ⟨[], ?_, by simp⟩
      rw [processEntry_of_seen _ _ _ h]
      unfold everPlaced
      simp [hs', hq]
    · rw [Bool.not_eq_true] at h
      obtain ⟨t, ht, hp⟩ := processEntry_toVisit env entry s' h
      refine ⟨t, ?_, ?_⟩
      · unfold everPlaced
        rw [processEntry_dequeuedLog, ht]
        simp [hs', hq]
      · intro e he
        obtain ⟨hd, hdep, link, u, hres, hadm, hurl, _⟩ := hp e he
        exact ⟨entry, by simp [hq], hd, hdep, link, u, hres, hadm, hurl⟩

theorem crawlLoop_depth_le (env : Env) (fuel : Nat) (s : CrawlState)
    (h : ∀ e ∈ everPlaced s, e.depth ≤ env.maxDepth) :
    ∀ e ∈ everPlaced (crawlLoop env fuel s), e.depth ≤ env.maxDepth :=
  crawlLoop_invariant env (fun st => ∀ e ∈ everPlaced st, e.depth ≤ env.maxDepth)
    (fun st _ hP => by
      obtain ⟨t, ht, hp⟩ := stepOnce_everPlaced env st
      rw [ht]
      intro e he
      rcases List.mem_append.mp he with he | he
      · exact hP e he
      · obtain ⟨entry, _, hd, hdep, _⟩ := hp e he
        omega) fuel s h

theorem crawlLoop_everPlaced_length (env : Env) (hz : env.maxDepth = 0) (fuel : Nat)
    (s : CrawlState) :
    (everPlaced (crawlLoop env fuel s)).length = (everPlaced s).length := by
  induction fuel generalizing s with
  | zero => rfl
  | succ n ih =>
    simp only [crawlLoop]
    by_cases hg : crawlGuard env s = true
    · simp only [hg, if_true]
      rw [ih (stepOnce env s)]
      obtain ⟨t, ht, hp⟩ := stepOnce_everPlaced env s
      have htnil : t = [] := by
        cases t with
        | nil => rfl
        | cons a ts =>
          obtain ⟨entry, _, hd, _⟩ := hp a (by simp)
          omega
      rw [ht, htnil]
      simp
    · rw [Bool.not_eq_true] at hg
      simp only [hg, Bool.false_eq_true, if_false]

/-- C4: every entry ever placed on the frontier (the seed plus every enqueued
link entry, i.e. the dequeued log plus the pending queue) has depth at most
`maxDepth`; and when `maxDepth = 0` the seed is the only entry the frontier
ever carries — no link is ever enqueued, whatever the pages hold. -/
theorem frontier_depth_bounded (env : Env) (pd fuel : Nat) :
    (∀ e ∈ everPlaced (handleDomain env pd fuel), e.depth ≤ env.maxDepth) ∧
    (env.maxDepth = 0 → (everPlaced (handleDomain env pd fuel)).length = 1) := by
  rw [handleDomain_everPlaced]
  constructor
  · refine crawlLoop_depth_le env fuel (initState env) ?_
    intro e he
    simp [everPlaced, initState] at he
    simp [he]
  · intro hz
    rw [crawlLoop_everPlaced_length env hz fuel (initState env)]
    rfl

/-- C4 witness: a concrete run with `maxDepth = 0` over a page that does
carry a link — the seed keeps depth 0 and remains the only frontier entry
ever created. -/
theorem frontier_depth_bounded_witness :
    (⟨"http://example.com", 0⟩ : FrontierEntry).depth ≤ depth0Env.maxDepth ∧
    (everPlaced (handleDomain depth0Env 0 3)).length = 1 :=
  ⟨(frontier_depth_bounded depth0Env 0 3).1 ⟨"http://example.com", 0⟩ (by decide),
   (frontier_depth_bounded depth0Env 0 3).2 rfl⟩

theorem bfsInv_dequeue (log rest t : List FrontierEntry) (entry : FrontierEntry)
    (h1 : log.Pairwise (fun a b => a.depth ≤ b.depth))
    (h2 : ∀ x ∈ log, ∀ e ∈ entry :: rest, x.depth ≤ e.depth)
    (h3 : (entry :: rest).Pairwise (fun a b => a.depth ≤ b.depth))
    (h4 : ∀ e ∈ entry :: rest, e.depth ≤ entry.depth + 1)
    (htd : ∀ e ∈ t, e.depth = entry.depth + 1) :
    (log ++ [entry]).Pairwise (fun a b => a.depth ≤ b.depth) ∧
    (∀ x ∈ log ++ [entry], ∀ e ∈ rest ++ t, x.depth ≤ e.depth) ∧
    (rest ++ t).Pairwise (fun a b => a.depth ≤ b.depth) ∧
    (∀ a, (rest ++ t).head? = some a → ∀ e ∈ rest ++ t, e.depth ≤ a.depth + 1) := by
  have hcons := List.pairwise_cons.mp h3
  have hhead : ∀ e ∈ rest, entry.depth ≤ e.depth := hcons.1
  have hrest : rest.Pairwise (fun a b => a.depth ≤ b.depth) := hcons.2
  refine ⟨?_, ?_, ?_, ?_⟩
  · rw [List.pairwise_append]
    refine ⟨h1, List.pairwise_singleton _ _, ?_⟩
    intro a ha b hb
    rw [List.mem_singleton] at hb
    rw [hb]
    exact h2 a ha entry (List.mem_cons_self _ _)
  · intro x hx e he
    rcases List.mem_append.mp hx with hx | hx
    · rcases List.mem_append.mp he with he | he
      · exact h2 x hx e (List.mem_cons_of_mem _ he)
      · have hxe := h2 x hx entry (List.mem_cons_self _ _)
        have hed := htd e he
        omega
    · rw [List.mem_singleton] at hx
      subst hx
      rcases List.mem_append.mp he with he | he
      · exact hhead e he
      · rw [htd e he]
        omega
  · rw [List.pairwise_append]
    refine ⟨hrest, ?_, ?_⟩
    · refine List.pairwise_of_forall_mem_list ?_
      intro a ha b hb
      have hda := htd a ha
      have hdb := htd b hb
      omega
    · intro a ha b hb
      have h4a := h4 a (List.mem_cons_of_mem _ ha)
      rw [htd b hb]
      exact h4a
  · intro a ha e he
    cases rest with
    | nil =>
      simp only [List.nil_append] at ha he
      have ha' : a ∈ t := by
        cases t with
        | nil => simp at ha
        | cons b bs =>
          simp only [List.head?_cons, Option.some.injEq] at ha
          subst ha
          exact List.mem_cons_self _ _
      rw [htd e he, htd a ha']
      omega
    | cons r rs =>
      have har : a = r := by
        simp only [List.cons_append, List.head?_cons, Option.some.injEq] at ha
        exact ha.symm
      subst har
      have hr : entry.depth ≤ a.depth := hhead a (List.mem_cons_self _ _)
      rcases List.mem_append.mp he with he | he
      · have h4e := h4 e (List.mem_cons_of_mem _ he)
        omega
      · rw [htd e he]
        omega

theorem stepOnce_bfsInv (env : Env) (s : CrawlState) (h : BfsInv s) :
    BfsInv (stepOnce env s) := by
  obtain ⟨h1, h2, h3, h4⟩ := h
  cases hq : s.toVisit with
  | nil =>
    rw [stepOnce_of_nil env s hq]
    exact ⟨h1, h2, h3, h4⟩
  | cons entry rest =>
    rw [stepOnce_eq env s entry rest hq]
    rw [hq] at h2 h3 h4
    have h4' : ∀ e ∈ entry :: rest, e.depth ≤ entry.depth + 1 := h4 entry rfl
    set s' : CrawlState :=
      { s with toVisit := rest, dequeuedLog := s.dequeuedLog ++ [entry] } with hs'
    by_cases hseen : s'.seen.contains entry.url = true
    · rw [processEntry_of_seen _ _ _ hseen]
      obtain ⟨k1, k2, k3, k4⟩ :=
        bfsInv_dequeue s.dequeuedLog rest [] entry h1 h2 h3 h4' (by simp)
      simp only [List.append_nil] at k2 k3 k4
      exact ⟨k1, k2, k3, k4⟩
    · rw [Bool.not_eq_true] at hseen
      obtain ⟨t, ht, hp⟩ := processEntry_toVisit env entry s' hseen
      have htd : ∀ e ∈ t, e.depth = entry.depth + 1 := fun e he => (hp e he).2.1
      obtain ⟨k1, k2, k3, k4⟩ := bfsInv_dequeue s.dequeuedLog rest t entry h1 h2 h3 h4' htd
      refine ⟨?_, ?_, ?_, ?_⟩
      · rw [processEntry_dequeuedLog]
        exact k1
      · rw [processEntry_dequeuedLog, ht]
        exact k2
      · rw [ht]
        exact k3
      · rw [ht]
        exact k4

theorem crawlLoop_bfsInv (env : Env) (fuel : Nat) (s : CrawlState) (h : BfsInv s) :
    BfsInv (crawlLoop env fuel s) :=
  crawlLoop_invariant env BfsInv (fun st _ hP => stepOnce_bfsInv env st hP) fuel s h

theorem initState_bfsInv (env : Env) : BfsInv (initState env) := by
  refine ⟨by simp [initState], by simp [initState], by simp [initState], ?_⟩
  intro a ha e he
  simp only [initState, List.head?_cons, Option.some.injEq] at ha
  simp only [initState, List.mem_singleton] at he
  subst ha
  subst he
  omega

/-- C5: within one domain's traversal the depths of the dequeued frontier
entries form a non-decreasing sequence — every depth-d entry is dequeued
before any depth-(d+1) entry, the strict breadth-first order of the FIFO
`toVisit.shift()` queue. -/
theorem dequeue_depths_nondecreasing (env : Env) (pd fuel : Nat) :
    (handleDomain env pd fuel).dequeuedLog.Pairwise (fun a b => a.depth ≤ b.depth) := by
  rw [handleDomain_dequeuedLog]
  exact (crawlLoop_bfsInv env fuel (initState env) (initState_bfsInv env)).1

theorem setAdd_nodup (xs : List String) (x : String) (h : xs.Nodup) : (setAdd xs x).Nodup := by
  unfold setAdd
  by_cases hc : xs.contains x = true
  · simp only [hc, if_true]
    exact h
  · rw [Bool.not_eq_true] at hc
    simp only [hc, Bool.false_eq_true, if_false]
    have hx : x ∉ xs := by simpa using hc
    simp [List.nodup_append, h, hx]

theorem foldl_setAdd_nodup {α : Type} (g : α → String) (l : List α) (sink : List String)
    (h : sink.Nodup) : (l.foldl (fun r i => setAdd r (g i)) sink).Nodup := by
  induction l generalizing sink with
  | nil => exact h
  | cons a as ih => exact ih (setAdd sink (g a)) (setAdd_nodup sink (g a) h)

theorem crawlLoop_results_nodup (env : Env) (fuel : Nat) (s : CrawlState)
    (h : s.results.Nodup) : (crawlLoop env fuel s).results.Nodup :=
  crawlLoop_invariant env (fun st => st.results.Nodup)
    (fun st _ hP => by
      cases hq : st.toVisit with
      | nil => rw [stepOnce_of_nil env st hq]; exact hP
      | cons entry rest =>
        rw [stepOnce_eq env st entry rest hq]
        set s' : CrawlState :=
          { st with toVisit := rest, dequeuedLog := st.dequeuedLog ++ [entry] } with hs'
        by_cases hseen : s'.seen.contains entry.url = true
        · rw [processEntry_of_seen _ _ _ hseen]
          exact hP
        · rw [Bool.not_eq_true] at hseen
          obtain ⟨imgs, himgs⟩ := processEntry_results env entry s' hseen
          rw [himgs]
          exact foldl_setAdd_nodup _ imgs s'.results hP) fuel s h

/-- C9: the job-wide result sink holds no duplicate entry after any sequence
of image forwards — `add` resolves the raw reference against the page URL
(falling back to the raw string when resolution fails), a duplicate insert is
a no-op, and every traversal's accumulated result list is duplicate-free. -/
theorem resultSink_unique (resolve : String → String → Option URLParts)
    (adds : List (String × String)) :
    (adds.foldl (fun r p => sinkAdd resolve r p.1 p.2) []).Nodup ∧
    (∀ sink raw base, sink.contains (normalizeUrl resolve raw base) = true →
      sinkAdd resolve sink raw base = sink) ∧
    (∀ env : Env, ∀ pd fuel : Nat, (handleDomain env pd fuel).results.Nodup) := by
  refine ⟨?_, ?_, ?_⟩
  · exact foldl_setAdd_nodup (fun p => normalizeUrl resolve p.1 p.2) adds [] (by simp)
  · intro sink raw base h
    unfold sinkAdd setAdd
    simp only [h, if_true]
  · intro env pd fuel
    rw [handleDomain_results]
    exact crawlLoop_results_nodup env fuel (initState env) (by simp [initState])

/-- C9 witness: inserting an image whose resolved URL is already present
leaves the sink unchanged, at a concrete sink. -/
theorem resultSink_unique_witness :
    sinkAdd (fun _ _ => none) ["a.png"] "a.png" "http://example.com" = ["a.png"] :=
  (resultSink_unique (fun _ _ => none) []).2.1 ["a.png"] "a.png" "http://example.com" (by decide)

theorem stepOnce_skip (env : Env) (s : CrawlState) (entry : FrontierEntry)
    (rest : List FrontierEntry) (hq : s.toVisit = entry :: rest)
    (hseen : s.seen.contains entry.url = true) :
    stepOnce env s = { s with toVisit := rest, dequeuedLog := s.dequeuedLog ++ [entry] } := by
  rw [stepOnce_eq env s entry rest hq]
  exact processEntry_of_seen _ _ _ hseen

theorem crawlLoop_seen_nodup (env : Env) (fuel : Nat) (s : CrawlState)
    (h1 : s.seen.Nodup) (h2 : s.pagesVisited = s.seen.length) :
    (crawlLoop env fuel s).seen.Nodup ∧
      (crawlLoop env fuel s).pagesVisited = (crawlLoop env fuel s).seen.length :=
  crawlLoop_invariant env (fun st => st.seen.Nodup ∧ st.pagesVisited = st.seen.length)
    (fun st _ hP => by
      obtain ⟨hn, hl⟩ := hP
      cases hq : st.toVisit with
      | nil => rw [stepOnce_of_nil env st hq]; exact ⟨hn, hl⟩
      | cons entry rest =>
        rw [stepOnce_eq env st entry rest hq]
        set s' : CrawlState :=
          { st with toVisit := rest, dequeuedLog := st.dequeuedLog ++ [entry] } with hs'
        by_cases hseen : s'.seen.contains entry.url = true
        · rw [processEntry_of_seen _ _ _ hseen]
          exact ⟨hn, hl⟩
        · rw [Bool.not_eq_true] at hseen
          have hmem : entry.url ∉ st.seen := by simpa using hseen
          constructor
          · rw [processEntry_seen_eq _ _ _ hseen]
            simp [List.nodup_append, hn, hmem]
          · rw [processEntry_pagesVisited _ _ _ hseen, processEntry_seen_eq _ _ _ hseen]
            simp [hl]) fuel s ⟨h1, h2⟩

/-- C10: a frontier may hold several entries for one URL at once — shown on a
concrete page whose two distinct raw links resolve to the same stripped URL —
yet every URL is processed at most once: the visited list never repeats, the
budget counts exactly the visited URLs, and a dequeued entry whose URL is
already visited is dropped with no fetch, no event, and no budget use. -/
theorem frontier_dups_but_visited_once :
    (¬ (crawlLoop dupEnv 1 (initState dupEnv)).toVisit.Nodup) ∧
    (∀ env : Env, ∀ pd fuel : Nat,
      (handleDomain env pd fuel).seen.Nodup ∧
      (handleDomain env pd fuel).pagesVisited = (handleDomain env pd fuel).seen.length) ∧
    (∀ env : Env, ∀ s : CrawlState, ∀ entry : FrontierEntry, ∀ rest : List FrontierEntry,
      s.toVisit = entry :: rest → s.seen.contains entry.url = true →
      stepOnce env s = { s with toVisit := rest, dequeuedLog := s.dequeuedLog ++ [entry] }) := by
  refine ⟨by decide, ?_, ?_⟩
  · intro env pd fuel
    rw [handleDomain_seen, handleDomain_pagesVisited]
    exact crawlLoop_seen_nodup env fuel (initState env) (by simp [initState]) (by simp [initState])
  · intro env s entry rest hq hs
    exact stepOnce_skip env s entry rest hq hs

/-- C10 witness: a dequeued entry whose URL was already visited is discarded
with no other state change, at a concrete state. -/
theorem frontier_dups_but_visited_once_witness :
    stepOnce dupEnv
      { seen := ["http://example.com/p"], toVisit := [⟨"http://example.com/p", 1⟩],
        pagesVisited := 1, results := [], events := [], dequeuedLog := [], ctxLog := [] } =
      { seen := ["http://example.com/p"], toVisit := [], pagesVisited := 1, results := [],
        events := [], dequeuedLog := [⟨"http://example.com/p", 1⟩], ctxLog := [] } :=
  frontier_dups_but_visited_once.2.2 dupEnv
    { seen := ["http://example.com/p"], toVisit := [⟨"http://example.com/p", 1⟩],
      pagesVisited := 1, results := [], events := [], dequeuedLog := [], ctxLog := [] }
    ⟨"http://example.com/p", 1⟩ [] rfl (by decide)

theorem crawlLoop_admission (env : Env) (fuel : Nat) (s : CrawlState)
    (h : ∀ e ∈ everPlaced s, e = ⟨"http://" ++ env.domain, 0⟩ ∨
      ∃ link pageUrl u, env.resolve link pageUrl = some u ∧ codeAdmits env.host u = true ∧
        e.url = stripFragment u.href) :
    ∀ e ∈ everPlaced (crawlLoop env fuel s),
      e = ⟨"http://" ++ env.domain, 0⟩ ∨
      ∃ link pageUrl u, env.resolve link pageUrl = some u ∧ codeAdmits env.host u = true ∧
        e.url = stripFragment u.href :=
  crawlLoop_invariant env
    (fun st => ∀ e ∈ everPlaced st,
      e = ⟨"http://" ++ env.domain, 0⟩ ∨
      ∃ link pageUrl u, env.resolve link pageUrl = some u ∧ codeAdmits env.host u = true ∧
        e.url = stripFragment u.href)
    (fun st _ hP => by
      obtain ⟨t, ht, hp⟩ := stepOnce_everPlaced env st
      rw [ht]
      intro e he
      rcases List.mem_append.mp he with he | he
      · exact hP e he
      · obtain ⟨entry, _, _, _, link, u, hres, hadm, hurl⟩ := hp e he
        exact Or.inr ⟨link, entry.url, u, hres, hadm, hurl⟩) fuel s h

/-- C1 (amended): every entry the traversal ever enqueues is either the seed
or arises from a link whose resolution has scheme http or https and whose
lowercased hostname merely ends with the host string — a suffix test that
admits the host and its subdomains but also any unrelated hostname ending in
the host, with the fragment stripped from the admitted URL. -/
theorem frontier_admission (env : Env) (pd fuel : Nat) :
    ∀ e ∈ everPlaced (handleDomain env pd fuel),
      e = ⟨"http://" ++ env.domain, 0⟩ ∨
      ∃ link pageUrl u, env.resolve link pageUrl = some u ∧
        codeAdmits env.host u = true ∧ e.url = stripFragment u.href := by
  rw [handleDomain_everPlaced]
  refine crawlLoop_admission env fuel (initState env) ?_
  intro e he
  simp only [everPlaced, initState, List.nil_append, List.mem_singleton] at he
  exact Or.inl he

/-- C1 witness: the admission disjunction instantiated at the entry the
evil-suffix run enqueues. -/
theorem frontier_admission_witness :
    (⟨"http://evilexample.com/", 1⟩ : FrontierEntry) = ⟨"http://" ++ evilEnv.domain, 0⟩ ∨
    ∃ link pageUrl u, evilEnv.resolve link pageUrl = some u ∧
      codeAdmits evilEnv.host u = true ∧
      (⟨"http://evilexample.com/", 1⟩ : FrontierEntry).url = stripFragment u.href :=
  frontier_admission evilEnv 0 1 ⟨"http://evilexample.com/", 1⟩ (by decide)

/-- C1 counterexample: the page of host example.com links to
evilexample.com; the resolved hostname is neither equal to the host nor a
dot-separated subdomain of it, yet the code's suffix test admits it and the
link is enqueued. -/
theorem evil_suffix_link_enqueued :
    evilEnv.resolve "http://evilexample.com/" "http://example.com" =
      some ⟨"http:", "evilexample.com", "http://evilexample.com/"⟩ ∧
    specAdmits evilEnv.host ⟨"http:", "evilexample.com", "http://evilexample.com/"⟩ = false ∧
    (⟨"http://evilexample.com/", 1⟩ : FrontierEntry) ∈
      (crawlLoop evilEnv 1 (initState evilEnv)).toVisit := by
  decide

theorem processEntry_of_empty (env : Env) (entry : FrontierEntry) (s : CrawlState)
    (hseen : s.seen.contains entry.url = false)
    (hnone : (fetchRenderPhase env entry (markVisited env entry s)).1 = none) :
    processEntry env entry s =
      { (fetchRenderPhase env entry (markVisited env entry s)).2 with
        pagesVisited := ((fetchRenderPhase env entry (markVisited env entry s)).2).pagesVisited + 1 } := by
  simp only [processEntry, hseen, Bool.false_eq_true, if_false, hnone]

theorem processEntry_of_empty_str (env : Env) (entry : FrontierEntry) (s : CrawlState)
    (htmlStr : String) (hseen : s.seen.contains entry.url = false)
    (hsome : (fetchRenderPhase env entry (markVisited env entry s)).1 = some htmlStr)
    (hemp : htmlStr.isEmpty = true) :
    processEntry env entry s =
      { (fetchRenderPhase env entry (markVisited env entry s)).2 with
        pagesVisited := ((fetchRenderPhase env entry (markVisited env entry s)).2).pagesVisited + 1 } := by
  simp only [processEntry, hseen, Bool.false_eq_true, if_false, hsome, hemp, if_true]

theorem processEntry_of_content (env : Env) (entry : FrontierEntry) (s : CrawlState)
    (htmlStr : String) (hseen : s.seen.contains entry.url = false)
    (hsome : (fetchRenderPhase env entry (markVisited env entry s)).1 = some htmlStr)
    (hne : htmlStr.isEmpty = false) :
    processEntry env entry s =
      extractPhase env entry htmlStr (fetchRenderPhase env entry (markVisited env entry s)).2 := by
  simp only [processEntry, hseen, Bool.false_eq_true, if_false, hsome, hne]

theorem fetchRenderPhase_no_browser (env : Env) (entry : FrontierEntry) (s : CrawlState)
    (hb : env.browser = false) :
    fetchRenderPhase env entry s =
      (fetchedHtml (env.fetchPage entry.url),
       { s with events := s.events ++ fetchWarns env.host entry.url (env.fetchPage entry.url) }) := by
  simp only [fetchRenderPhase, hb, Bool.and_false, Bool.false_eq_true, if_false]

theorem fetchRenderPhase_render (env : Env) (entry : FrontierEntry) (s : CrawlState)
    (hc : (needsRender (fetchedHtml (env.fetchPage entry.url)) && env.browser) = true) :
    fetchRenderPhase env entry s =
      (renderedHtml (fetchedHtml (env.fetchPage entry.url)) (env.render entry.url),
       { s with
         events := (s.events ++ fetchWarns env.host entry.url (env.fetchPage entry.url)) ++
           renderEvents env.host entry.url (env.render entry.url),
         ctxLog := s.ctxLog ++ [renderCtxUse (env.render entry.url)] }) := by
  simp only [fetchRenderPhase, hc, if_true]

theorem fetchWarns_no_domainProgress (host url dom : String) (n : Nat) (fo : FetchOutcome) :
    Event.domainProgress dom n ∉ fetchWarns host url fo := by
  cases fo with
  | fetchError m => simp [fetchWarns]
  | resp ok isHtml b =>
    by_cases hok : ok = true
    · simp [fetchWarns, hok]
    · rw [Bool.not_eq_true] at hok
      simp [fetchWarns, hok]

theorem renderEvents_warn_of_none (host url : String) (o : RenderOutcome)
    (h : renderedHtml none o = none) :
    renderEvents host url o = [Event.warn host url] := by
  cases o <;> simp_all [renderedHtml, renderEvents]

theorem needsRender_of_long (body : String) (h : 50 ≤ body.length) :
    needsRender (some body) = false := by
  simp only [needsRender, decide_eq_false_iff_not]
  omega

theorem isEmpty_false_of_long (body : String) (h : 50 ≤ body.length) :
    body.isEmpty = false := by
  rcases hb : body.isEmpty with _ | _
  · rfl
  · rw [String.isEmpty_iff] at hb
    subst hb
    simp at h

/-- C2 (amended): every dequeued, not-yet-visited entry increments
`pagesVisited` by exactly one whatever the fetch produced; the body of a
non-HTML response is never parsed, and when the render fallback is off such a
page contributes zero images and zero links while still consuming one unit of
budget.  (With a renderer available a non-HTML page can still contribute
content through the rendered document — see the counterexample.) -/
theorem pagesVisited_meters_attempts (env : Env) (s : CrawlState) (entry : FrontierEntry)
    (rest : List FrontierEntry) (hq : s.toVisit = entry :: rest)
    (hseen : s.seen.contains entry.url = false) :
    (stepOnce env s).pagesVisited = s.pagesVisited + 1 ∧
    (∀ ok body, env.fetchPage entry.url = FetchOutcome.resp ok false body →
      env.browser = false →
      (stepOnce env s).results = s.results ∧ (stepOnce env s).toVisit = rest) := by
  rw [stepOnce_eq env s entry rest hq]
  set s' : CrawlState :=
    { s with toVisit := rest, dequeuedLog := s.dequeuedLog ++ [entry] } with hs'
  have hseen' : s'.seen.contains entry.url = false := hseen
  constructor
  · rw [processEntry_pagesVisited _ _ _ hseen']
  · intro ok body hfetch hb
    have hnone : (fetchRenderPhase env entry (markVisited env entry s')).1 = none := by
      rw [fetchRenderPhase_no_browser env entry _ hb, hfetch]
      rfl
    rw [processEntry_of_empty env entry s' hseen' hnone]
    constructor
    · simp [fetchRenderPhase_results, markVisited, hs']
    · simp [fetchRenderPhase_toVisit, markVisited, hs']

/-- C2 witness: a non-HTML page with no renderer — one budget unit, no
results, nothing enqueued. -/
theorem pagesVisited_meters_attempts_witness :
    (stepOnce plainNonHtmlEnv (initState plainNonHtmlEnv)).pagesVisited =
      (initState plainNonHtmlEnv).pagesVisited + 1 ∧
    (stepOnce plainNonHtmlEnv (initState plainNonHtmlEnv)).results =
      (initState plainNonHtmlEnv).results ∧
    (stepOnce plainNonHtmlEnv (initState plainNonHtmlEnv)).toVisit = [] :=
  have h := pagesVisited_meters_attempts plainNonHtmlEnv (initState plainNonHtmlEnv)
    ⟨"http://example.com", 0⟩ [] (by decide) (by decide)
  ⟨h.1, (h.2 true "json-payload" rfl rfl).1, (h.2 true "json-payload" rfl rfl).2⟩

/-- C2 counterexample: with the browser available, a page whose response
content-type is not HTML still contributes an image — the render fallback
fires on the empty plain-fetch result and its document is extracted. -/
theorem nonhtml_page_contributes_image :
    nonHtmlEnv.fetchPage "http://example.com" = FetchOutcome.resp true false "json-payload" ∧
    (crawlLoop nonHtmlEnv 1 (initState nonHtmlEnv)).results = ["http://example.com/a.png"] ∧
    (crawlLoop nonHtmlEnv 1 (initState nonHtmlEnv)).pagesVisited = 1 := by
  decide

/-- C6 (amended): the `domain-progress` event fires only when a
content-bearing page brings `pagesVisited` to a multiple of 5; a page whose
content ends up empty increments the counter but skips the emission, because
the empty-content shortcut continues the loop before the progress check. -/
theorem domainProgress_only_with_content (env : Env) (s : CrawlState) (entry : FrontierEntry)
    (rest : List FrontierEntry) (hq : s.toVisit = entry :: rest)
    (hseen : s.seen.contains entry.url = false) :
    (fetchedHtml (env.fetchPage entry.url) = none → env.browser = false →
      (stepOnce env s).pagesVisited = s.pagesVisited + 1 ∧
      ∀ n, Event.domainProgress env.host n ∈ (stepOnce env s).events →
        Event.domainProgress env.host n ∈ s.events) ∧
    (∀ ok body, env.fetchPage entry.url = FetchOutcome.resp ok true body →
      50 ≤ body.length → (s.pagesVisited + 1) % 5 = 0 →
      Event.domainProgress env.host (s.pagesVisited + 1) ∈ (stepOnce env s).events) := by
  rw [stepOnce_eq env s entry rest hq]
  set s' : CrawlState :=
    { s with toVisit := rest, dequeuedLog := s.dequeuedLog ++ [entry] } with hs'
  have hseen' : s'.seen.contains entry.url = false := hseen
  constructor
  · intro hempty hb
    have hnone : (fetchRenderPhase env entry (markVisited env entry s')).1 = none := by
      rw [fetchRenderPhase_no_browser env entry _ hb]
      exact hempty
    have hev : (processEntry env entry s').events =
        (s.events ++ [Event.progress env.host entry.url entry.depth]) ++
          fetchWarns env.host entry.url (env.fetchPage entry.url) := by
      rw [processEntry_of_empty env entry s' hseen' hnone]
      show ((fetchRenderPhase env entry (markVisited env entry s')).2).events = _
      rw [fetchRenderPhase_no_browser env entry _ hb]
      simp [markVisited, hs']
    constructor
    · rw [processEntry_pagesVisited _ _ _ hseen']
    · intro n hn
      rw [hev] at hn
      rcases List.mem_append.mp hn with hn | hn
      · rcases List.mem_append.mp hn with hn | hn
        · exact hn
        · simp at hn
      · exact absurd hn (fetchWarns_no_domainProgress _ _ _ _ _)
  · intro ok body hfetch hlen hmod
    have hhtml : fetchedHtml (env.fetchPage entry.url) = some body := by
      rw [hfetch]
      rfl
    have hcond : (needsRender (fetchedHtml (env.fetchPage entry.url)) && env.browser) = false := by
      rw [hhtml, needsRender_of_long body hlen]
      rfl
    have hsome : (fetchRenderPhase env entry (markVisited env entry s')).1 = some body := by
      rw [fetchRenderPhase_html env entry (markVisited env entry s'), hcond]
      simp [hhtml]
    have hne := isEmpty_false_of_long body hlen
    rw [processEntry_of_content env entry s' body hseen' hsome hne]
    have hpv : ((fetchRenderPhase env entry (markVisited env entry s')).2).pagesVisited =
        s.pagesVisited := by
      rw [fetchRenderPhase_pagesVisited]
      simp [markVisited, hs']
    have hdp := extractPhase_domainProgress env entry body
      (fetchRenderPhase env entry (markVisited env entry s')).2 (by rw [hpv]; exact hmod)
    rw [hpv] at hdp
    exact hdp

/-- C6 witness: a content-bearing fifth page does emit the progress event. -/
theorem domainProgress_only_with_content_witness :
    Event.domainProgress progressEnv.host 5 ∈ (stepOnce progressEnv progressState).events :=
  (domainProgress_only_with_content progressEnv progressState ⟨"http://example.com/5", 1⟩ []
    rfl (by decide)).2 true
    "<html><body>0123456789012345678901234567890123456789</body></html>" rfl (by decide) (by decide)

/-- C6 counterexample: the fifth processed page fails to fetch; the counter
reaches 5 yet no domain-progress event is emitted anywhere in the run —
the empty-content path skips the every-5th-page check. -/
theorem fifth_page_empty_no_progress_event :
    (crawlLoop run5Env 6 (initState run5Env)).pagesVisited = 5 ∧
    Event.domainProgress run5Env.host 5 ∉ (crawlLoop run5Env 6 (initState run5Env)).events := by
  decide

/-- C7 (amended): the ghost context log shows the browsing context is
released exactly on the full-success path of the render block — navigation
failure included, since goto errors are swallowed — while a throw in page
creation, document capture, or page close leaves the acquired context
unreleased; each render attempt during a traversal appends exactly the
context record of its outcome. -/
theorem context_release_characterization (o : RenderOutcome) :
    ((renderCtxUse o).released = true ↔ ∃ gf doc, o = RenderOutcome.okRender gf doc) ∧
    ((renderCtxUse o).acquired = false ↔ ∃ m, o = RenderOutcome.failNewContext m) ∧
    (∀ doc, renderCtxUse (RenderOutcome.okRender true doc) = ⟨true, true⟩) ∧
    (∀ env : Env, ∀ s : CrawlState, ∀ entry : FrontierEntry,
      s.seen.contains entry.url = false →
      (needsRender (fetchedHtml (env.fetchPage entry.url)) && env.browser) = true →
      (processEntry env entry s).ctxLog =
        s.ctxLog ++ [renderCtxUse (env.render entry.url)]) := by
  refine ⟨?_, ?_, ?_, ?_⟩
  · cases o <;> simp [renderCtxUse]
  · cases o <;> simp [renderCtxUse]
  · intro doc
    rfl
  · intro env s entry hseen hc
    have hctx : ((fetchRenderPhase env entry (markVisited env entry s)).2).ctxLog =
        s.ctxLog ++ [renderCtxUse (env.render entry.url)] := by
      rw [fetchRenderPhase_ctxLog_of_render env entry _ hc]
      simp [markVisited]
    cases hh : (fetchRenderPhase env entry (markVisited env entry s)).1 with
    | none =>
      rw [processEntry_of_empty env entry s hseen hh]
      exact hctx
    | some htmlStr =>
      by_cases hne : htmlStr.isEmpty = true
      · rw [processEntry_of_empty_str env entry s htmlStr hseen hh hne]
        exact hctx
      · rw [Bool.not_eq_true] at hne
        rw [processEntry_of_content env entry s htmlStr hseen hh hne, extractPhase_ctxLog]
        exact hctx

/-- C7 witness: a swallowed navigation failure still ends in a released
context. -/
theorem context_release_characterization_witness :
    renderCtxUse (RenderOutcome.okRender true "rendered") = ⟨true, true⟩ :=
  (context_release_characterization (RenderOutcome.okRender true "rendered")).2.2.1 "rendered"

/-- C7 counterexample: capturing the rendered document fails; the catch
handler skips `context.close()`, so the acquired context is never released. -/
theorem context_leak_on_capture_failure :
    leakEnv.render "http://example.com" = RenderOutcome.failContent "target crashed" ∧
    (crawlLoop leakEnv 1 (initState leakEnv)).ctxLog = [⟨true, false⟩] := by
  decide

/-- C8 (amended): a render failure keeps whatever the plain fetch produced —
when that was nothing the page ends with empty content, nothing is extracted,
a warn event is recorded and the loop continues; but when the plain fetch
returned a short non-empty body, that body is still extracted after the
failed render (see the counterexample). -/
theorem render_failure_degrades (env : Env) (s : CrawlState) (entry : FrontierEntry)
    (rest : List FrontierEntry) (m : String) (hq : s.toVisit = entry :: rest)
    (hseen : s.seen.contains entry.url = false) (hb : env.browser = true) :
    (∀ prior : Option String,
      renderedHtml prior (RenderOutcome.failNewContext m) = prior ∧
      renderedHtml prior (RenderOutcome.failNewPage m) = prior ∧
      renderedHtml prior (RenderOutcome.failContent m) = prior) ∧
    (∀ o : RenderOutcome, renderedHtml none o = none →
      renderEvents env.host entry.url o = [Event.warn env.host entry.url]) ∧
    (fetchedHtml (env.fetchPage entry.url) = none →
      renderedHtml none (env.render entry.url) = none →
      (stepOnce env s).results = s.results ∧
      (stepOnce env s).toVisit = rest ∧
      (stepOnce env s).pagesVisited = s.pagesVisited + 1 ∧
      Event.warn env.host entry.url ∈ (stepOnce env s).events) := by
  refine ⟨fun prior => ⟨rfl, rfl, rfl⟩,
    fun o ho => renderEvents_warn_of_none env.host entry.url o ho, ?_⟩
  intro hempty hfail
  rw [stepOnce_eq env s entry rest hq]
  set s' : CrawlState :=
    { s with toVisit := rest, dequeuedLog := s.dequeuedLog ++ [entry] } with hs'
  have hseen' : s'.seen.contains entry.url = false := hseen
  have hc : (needsRender (fetchedHtml (env.fetchPage entry.url)) && env.browser) = true := by
    rw [hempty, hb]
    rfl
  have hnone : (fetchRenderPhase env entry (markVisited env entry s')).1 = none := by
    rw [fetchRenderPhase_render env entry _ hc]
    show renderedHtml (fetchedHtml (env.fetchPage entry.url)) (env.render entry.url) = none
    rw [hempty]
    exact hfail
  rw [processEntry_of_empty env entry s' hseen' hnone]
  refine ⟨?_, ?_, ?_, ?_⟩
  · simp [fetchRenderPhase_results, markVisited, hs']
  · simp [fetchRenderPhase_toVisit, markVisited, hs']
  · simp [fetchRenderPhase_pagesVisited, markVisited, hs']
  · show Event.warn env.host entry.url ∈
      ((fetchRenderPhase env entry (markVisited env entry s')).2).events
    rw [fetchRenderPhase_render env entry _ hc]
    show Event.warn env.host entry.url ∈
      ((markVisited env entry s').events ++
        fetchWarns env.host entry.url (env.fetchPage entry.url)) ++
        renderEvents env.host entry.url (env.render entry.url)
    rw [renderEvents_warn_of_none env.host entry.url _ hfail]
    simp

/-- C8 witness: a failed fetch followed by a failed render — empty content,
no results, nothing enqueued, one budget unit, a warn event. -/
theorem render_failure_degrades_witness :
    (stepOnce leakEnv (initState leakEnv)).results = (initState leakEnv).results ∧
    (stepOnce leakEnv (initState leakEnv)).toVisit = [] ∧
    (stepOnce leakEnv (initState leakEnv)).pagesVisited =
      (initState leakEnv).pagesVisited + 1 ∧
    Event.warn leakEnv.host "http://example.com" ∈ (stepOnce leakEnv (initState leakEnv)).events :=
  (render_failure_degrades leakEnv (initState leakEnv) ⟨"http://example.com", 0⟩ [] "x"
    (by decide) (by decide) rfl).2.2 rfl rfl

/-- C8 counterexample: the plain fetch returned a short non-empty HTML body,
the render fallback fired and failed, yet an image is still extracted from
the short body — the failed render does not force empty content. -/
theorem short_html_extracted_despite_render_failure :
    shortEnv.render "http://example.com" = RenderOutcome.failContent "target crashed" ∧
    shortEnv.fetchPage "http://example.com" = FetchOutcome.resp true true "<img src=a.png>" ∧
    (crawlLoop shortEnv 1 (initState shortEnv)).results = ["http://example.com/a.png"] := by
  decide

end SearchEverybody
